import Mathlib

/-!
Shallow embedding of the synchronization and analysis core of
`src/src/AudioProcess.h` (class `AudioProcess`), together with proofs about
its index arithmetic, reader-advance loop, cross-correlation synchronizer,
frame pacer, constructor validation and spectral peak / harmonic-fold math.

Modelling conventions:
* C `int` values are modelled as `ℤ`; machine overflow is irrelevant at the
  value ranges involved (all quantities stay far below 2^31).
* C `float` values are modelled as `ℚ` where only field arithmetic is used
  (sample buffers, correlation scores, frequencies fed to `advance_index`)
  and as `ℝ` where transcendental functions are involved
  (`log2f`/`powf` in `get_harmonic_less_than`, complex magnitudes in
  `max_bin`/`max_frequency`).  Statements about these functions are
  statements about the exact-arithmetic idealization of the float code.
* The C `while` loop in `advance_index` is modelled with explicit fuel,
  returning `none` when the fuel is exhausted; termination claims become
  `isSome` facts and non-termination is `= none` for every fuel.
* Arrays are modelled as total functions (`ℤ → ℚ`), matching how the code
  indexes its circular buffers modulo their capacity.
* `float` `-inf` (initial value of `max_md` in `cross_correlation_sync`)
  is modelled as `⊥ : WithBot ℚ`.
-/

/-- Sample rate of the audio stream (`SR`). -/
def SR : ℤ := 48000

/-- Sample rate of the audio handed to the FFT (`SRF = SR / 2`). -/
def SRF : ℤ := SR / 2

/-- Length of one capture chunk in frames (`ABL`). -/
def ABL : ℤ := 512

/-- Number of capture chunks kept (`ABN`). -/
def ABN : ℤ := 16

/-- Total circular buffer length (`TBL = ABL * ABN`). -/
def TBL : ℤ := ABL * ABN

/-- FFT length (`FFTLEN = TBL / 2`). -/
def FFTLEN : ℤ := TBL / 2

/-- Output window length (`VL = VISUALIZER_BUFSIZE`). -/
def VL : ℤ := 1024

/-- Number of history frames kept for cross correlation (`HISTORY_NUM_FRAMES`). -/
def HISTORY_NUM_FRAMES : ℤ := 7

/-- Search interval length for the cross correlation (`HISTORY_SEARCH_RANGE`). -/
def HISTORY_SEARCH_RANGE : ℤ := 350

/-- Stride of the cross-correlation scan (`HISTORY_SEARCH_GRANULARITY`). -/
def HISTORY_SEARCH_GRANULARITY : ℤ := 3

/-- Length of each history frame (`HISTORY_BUFF_SZ = VL`). -/
def HISTORY_BUFF_SZ : ℤ := VL

/-- Embedding of `AudioProcess::move_index`: add `delta` to `p`, then wrap by a
single conditional subtraction or addition of `tbl` (the source performs one
wrap step, not a full modulo reduction). -/
def move_index (p delta tbl : ℤ) : ℤ :=
  if p + delta ≥ tbl then p + delta - tbl
  else if p + delta < 0 then p + delta + tbl
  else p + delta

/-- Embedding of `AudioProcess::dist_forward`: `to - from`, plus `tbl` if
negative. -/
def dist_forward (from_ to_ tbl : ℤ) : ℤ :=
  if to_ - from_ < 0 then to_ - from_ + tbl else to_ - from_

/-- Embedding of `AudioProcess::dist_backward`, defined as the forward
distance with the endpoints swapped, exactly as in the source. -/
def dist_backward (from_ to_ tbl : ℤ) : ℤ :=
  dist_forward to_ from_ tbl

/-- The rounded wavelength `int(SR / freq + .5f)` computed at the top of
`AudioProcess::advance_index`.  The float division is modelled over `ℚ`; for
the nonnegative values the claims quantify over, C truncation toward zero
agrees with `Int.floor`. -/
def wavelength (freq : ℚ) : ℤ :=
  ⌊(SR : ℚ) / freq + 1/2⌋

/-- Fuel-indexed embedding of the `while (dist_forward(r, w, tbl) < VL)` loop
inside `AudioProcess::advance_index`.  Returns `none` when the fuel runs out
before the loop exits. -/
def advance_loop : ℕ → ℤ → ℤ → ℤ → ℤ → Option ℤ
  | 0, _, _, _, _ => none
  | fuel + 1, r, w, wave_len, tbl =>
    if dist_forward r w tbl < VL then
      advance_loop fuel (move_index r wave_len tbl) w wave_len tbl
    else
      some r

/-- Embedding of `AudioProcess::advance_index`: advance `r` by one rounded
wavelength unconditionally, then skip past the discontinuity while the
forward distance to the writer `w` is below `VL`. -/
def advance_index (fuel : ℕ) (w r : ℤ) (freq : ℚ) (tbl : ℤ) : Option ℤ :=
  advance_loop fuel (move_index r (wavelength freq) tbl) w (wavelength freq) tbl

/-- Divergence of `advance_index`: the skip loop never exits, for any fuel. -/
def advance_never_returns (w r : ℤ) (freq : ℚ) (tbl : ℤ) : Prop :=
  ∀ fuel : ℕ, advance_index fuel w r freq tbl = none

/-- Embedding of `AudioProcess::reverse_dot_prod`: sum over `i < b_sz` of
`a_circular[(i + a_offset) % a_sz] / a_scale * b_buff[b_sz - i - 1]`. -/
def reverse_dot_prod (a_circular b_buff : ℤ → ℚ) (a_offset a_sz b_sz : ℤ)
    (a_scale : ℚ) : ℚ :=
  ∑ i ∈ Finset.range b_sz.toNat,
    a_circular (((i : ℤ) + a_offset) % a_sz) / a_scale * b_buff (b_sz - (i : ℤ) - 1)

/-- The similarity score accumulated for one candidate position in
`AudioProcess::cross_correlation_sync` (the inner `for (b …)` loop): the sum
over the `HISTORY_NUM_FRAMES` history frames, indexed `(frame_id + b) %
HISTORY_NUM_FRAMES`, of a reverse dot product against the capture buffer. -/
def xcorr_score (prev_buff : ℤ → ℤ → ℚ) (frame_id : ℤ) (buff : ℤ → ℚ)
    (channel_max : ℚ) (r : ℤ) : ℚ :=
  ∑ b ∈ Finset.range HISTORY_NUM_FRAMES.toNat,
    reverse_dot_prod buff (prev_buff ((frame_id + (b : ℤ)) % HISTORY_NUM_FRAMES)) r TBL
      HISTORY_BUFF_SZ channel_max

/-- The candidate scan loop of `AudioProcess::cross_correlation_sync`:
`n` iterations; each compares the candidate score `md` against the running
maximum `max_md` (initially float `-inf`, modelled `⊥ : WithBot ℚ`) and steps
the candidate by `HISTORY_SEARCH_GRANULARITY` around the circular buffer. -/
def xcorr_go (score : ℤ → ℚ) : ℕ → ℤ → ℤ → WithBot ℚ → ℤ
  | 0, _, max_r, _ => max_r
  | n + 1, r, max_r, max_md =>
    let md := score r
    if max_md < (md : WithBot ℚ) then
      xcorr_go score n (move_index r HISTORY_SEARCH_GRANULARITY TBL) r (md : WithBot ℚ)
    else
      xcorr_go score n (move_index r HISTORY_SEARCH_GRANULARITY TBL) max_r max_md

/-- Embedding of `AudioProcess::cross_correlation_sync`: shift `r` backward by
`dist / 2`, then scan `dist / HISTORY_SEARCH_GRANULARITY` candidates forward
in strides of `HISTORY_SEARCH_GRANULARITY`, returning the candidate with the
maximal score.  The writer argument `w` is unused, exactly as in the source. -/
def cross_correlation_sync (w r dist : ℤ) (prev_buff : ℤ → ℤ → ℚ)
    (frame_id : ℤ) (buff : ℤ → ℚ) (channel_max : ℚ) : ℤ :=
  let r0 := move_index r (-dist / 2) TBL
  xcorr_go (xcorr_score prev_buff frame_id buff channel_max)
    (dist / HISTORY_SEARCH_GRANULARITY).toNat r0 r0 ⊥

/-- The per-channel read-cursor computation of one processing cycle of
`AudioProcess::step` (lines 311-316): wavelength advance via `advance_index`,
then the optional cross-correlation adjustment when `xcorr_sync` is set. -/
def emitted_reader (fuel : ℕ) (xcorr_sync : Bool) (w r : ℤ) (freq : ℚ)
    (prev_buff : ℤ → ℤ → ℚ) (frame_id : ℤ) (buff : ℤ → ℚ)
    (channel_max : ℚ) : Option ℤ :=
  (advance_index fuel w r freq TBL).map fun r1 =>
    if xcorr_sync then
      cross_correlation_sync w r1 HISTORY_SEARCH_RANGE prev_buff frame_id buff channel_max
    else r1

/-- An all-zero capture buffer (the zero-initialized `audio_buff` state). -/
def zero_buff : ℤ → ℚ := fun _ => 0

/-- An all-zero history ring (the zero-initialized `prev_buff` state). -/
def zero_hist : ℤ → ℤ → ℚ := fun _ _ => 0

/-- The fixed frame period `_60fpsDura = dura(1.f / 60.f)` in nanoseconds:
`duration_cast<nanoseconds>(duration<float>(1.f/60.f))` evaluates to
16666667 ns (the float nearest to 1/60 is 8947849/2^29 s; scaling by 1e9 in
float arithmetic gives exactly 16666667). -/
def _60fpsDura : ℤ := 16666667

/-- The pacer-relevant state of `AudioProcess`: the target time `next_time`
(nanoseconds on the monotonic clock) and the frame counter `frame_id`. -/
structure PacerState where
  next_time : ℤ
  frame_id : ℤ
deriving DecidableEq

/-- The pacing logic of one `AudioProcess::step` call (lines 304-309 and
375-377): read the clock, snap the target to `now - 1ms` if `now` has
drifted more than `60ms` past it, run a processing cycle only when
`now > next_time`, and in that case advance the target by one period and
increment the frame counter.  The returned `Bool` records whether the
processing cycle ran. -/
def pacer_step (now : ℤ) (s : PacerState) : PacerState × Bool :=
  let next1 : ℤ := if now - s.next_time > 60000000 then now - 1000000 else s.next_time
  if now > next1 then (⟨next1 + _60fpsDura, s.frame_id + 1⟩, true)
  else (⟨next1, s.frame_id⟩, false)

/-- The pacer state right after construction: `now_time` is a
default-constructed (epoch) time point and `next_time = now_time +
_60fpsDura`; `frame_id = 0`. -/
def pacer_init : PacerState :=
  ⟨_60fpsDura, 0⟩

/-- Driving the pacer: call `n`, for `n ≥ 1`, observes the clock at
`t0 + n * _60fpsDura`, i.e. the clock advances by exactly one fixed period
per call starting from offset `t0`. -/
def pacer_drive (t0 : ℤ) : ℕ → PacerState
  | 0 => pacer_init
  | n + 1 => (pacer_step (t0 + ((n : ℤ) + 1) * _60fpsDura) (pacer_drive t0 n)).1

/-- The construction-time options consumed by `AudioProcess` (from
`ShaderConfig.h`). -/
structure AudioOptions where
  xcorr_sync : Bool
  fft_sync : Bool
  wave_smooth : ℚ

/-- The interface surface of the audio stream that the constructor
validates: its reported sample rate and maximum chunk size. -/
structure AudioStreamInfo where
  sample_rate : ℤ
  max_buff_size : ℤ

/-- The scalar state of `AudioProcess` initialized by the constructor. -/
structure AudioProcessState where
  xcorr_sync : Bool
  fft_sync : Bool
  wave_smoother : ℚ
  writer : ℤ
  reader_l : ℤ
  reader_r : ℤ
  freq_l : ℚ
  freq_r : ℚ
  channel_max_l : ℚ
  channel_max_r : ℚ
  frame_id : ℤ
  next_time : ℤ

/-- The state established by the body of the `AudioProcess` constructor once
validation has passed. -/
def init_state (o : AudioOptions) : AudioProcessState :=
  ⟨o.xcorr_sync, o.fft_sync, o.wave_smooth, 0, 0, 0, 60, 60, 1, 1, 0, _60fpsDura⟩

/-- Embedding of the `AudioProcess` constructor: `exit(1)` when the stream's
sample rate is not 48000 or its maximum chunk size is below `ABL`
(modelled as `Except.error ()`), otherwise complete construction with the
initial state. -/
def construct (stream : AudioStreamInfo) (o : AudioOptions) :
    Except Unit AudioProcessState :=
  if stream.sample_rate ≠ 48000 then Except.error ()
  else if stream.max_buff_size < ABL then Except.error ()
  else Except.ok (init_state o)

/-- One update step of the peak scan in `AudioProcess::max_bin`: replace the
running `(max, max_i)` pair when the magnitude at bin `i` strictly exceeds
the running maximum. -/
noncomputable def max_bin_step (f : ℕ → ℂ) (s : ℝ × ℕ) (i : ℕ) : ℝ × ℕ :=
  if Complex.abs (f i) > s.1 then (Complex.abs (f i), i) else s

/-- Embedding of `AudioProcess::max_bin`: scan bins `1` to `99` (the loop
`for (i = 1; i < 100; ++i)`), tracking the maximal magnitude, starting from
`max = 0, max_i = 0`. -/
noncomputable def max_bin (f : ℕ → ℂ) : ℕ :=
  ((List.range' 1 99).foldl (max_bin_step f) ((0 : ℝ), 0)).2

/-- Embedding of `AudioProcess::max_frequency`: clamp a selected bin of 0 to
1, refine by parabolic interpolation of the magnitudes at `k-1, k, k+1`,
convert to Hz by `kp * SRF / FFTLEN`, and floor the result at 10. -/
noncomputable def max_frequency (f : ℕ → ℂ) : ℝ :=
  let k0 := max_bin f
  let k := if k0 = 0 then 1 else k0
  let a := Complex.abs (f (k - 1))
  let b := Complex.abs (f k)
  let g := Complex.abs (f (k + 1))
  let d := (1/2 : ℝ) * (a - g) / (a - 2 * b + g + 1/1000)
  let kp := (k : ℝ) + d
  max (kp * (SRF : ℝ) / (FFTLEN : ℝ)) 10

/--Embedding of `AudioProcess::get_harmonic_less_than` over `ℝ`:
`freq * 2^⌊log2 thres - log2 freq⌋`.  The float code detects the degenerate
cases (non-positive or non-finite `freq` or `thres`, whose `log2f` is NaN or
infinite and whose fold therefore is not a normal number) via `isnormal` and
substitutes the default pitch 60; over `ℝ` that fallback is modelled by
guarding on positivity of both arguments. -/
noncomputable def get_harmonic_less_than (freq thres : ℝ) : ℝ :=
  if 0 < freq ∧ 0 < thres then
    freq * (2 : ℝ) ^ ⌊Real.logb 2 thres - Real.logb 2 freq⌋
  else 60

/-- A concrete spectrum whose DC bin dominates: bin 0 has magnitude 5,
bin 3 has magnitude 1, all other bins are zero. -/
noncomputable def dc_heavy_bins : ℕ → ℂ :=
  fun n => if n = 0 then 5 else if n = 3 then 1 else 0

lemma TBL_val : TBL = 8192 := rfl

lemma VL_val : VL = 1024 := rfl

lemma move_index_eq (p d c : ℤ) (hc : 0 < c) (h1 : -c ≤ p + d) (h2 : p + d < 2 * c) :
    move_index p d c = (p + d) % c := by
  unfold move_index
  split_ifs with ha hb
  · have e1 : (p + d - c) % c = (p + d) % c := by
      conv_rhs => rw [show p + d = (p + d - c) + c * 1 by ring]
      rw [Int.add_mul_emod_self_left]
    have e2 : (p + d - c) % c = p + d - c := Int.emod_eq_of_lt (by omega) (by omega)
    omega
  · have e1 : (p + d + c) % c = (p + d) % c := by
      conv_rhs => rw [show p + d = (p + d + c) + c * (-1) by ring]
      rw [Int.add_mul_emod_self_left]
    have e2 : (p + d + c) % c = p + d + c := Int.emod_eq_of_lt (by omega) (by omega)
    omega
  · exact (Int.emod_eq_of_lt (by omega) (by omega)).symm

lemma move_index_range (p d c : ℤ) (hc : 0 < c) (h1 : -c ≤ p + d) (h2 : p + d < 2 * c) :
    0 ≤ move_index p d c ∧ move_index p d c < c := by
  unfold move_index
  split_ifs <;> omega

lemma dist_forward_eq_emod (a w c : ℤ) (hc : 0 < c) (ha0 : 0 ≤ a) (ha1 : a < c)
    (hw0 : 0 ≤ w) (hw1 : w < c) :
    dist_forward a w c = (w - a) % c := by
  unfold dist_forward
  split_ifs with h
  · have e1 : (w - a + c) % c = (w - a) % c := by
      conv_rhs => rw [show w - a = (w - a + c) + c * (-1) by ring]
      rw [Int.add_mul_emod_self_left]
    have e2 : (w - a + c) % c = w - a + c := Int.emod_eq_of_lt (by omega) (by omega)
    omega
  · exact (Int.emod_eq_of_lt (by omega) (by omega)).symm

lemma emod_add_cancel (a b c : ℤ) : (a % c + b) % c = (a + b) % c := by
  rw [Int.add_emod (a % c) b, Int.emod_emod_of_dvd a (dvd_refl c), ← Int.add_emod]

lemma emod_sub_congr (w a b c : ℤ) (h : a % c = b % c) : (w - a) % c = (w - b) % c := by
  rw [Int.sub_emod w a, h, ← Int.sub_emod]

/-- C3: `move_index(p, delta, capacity)` equals `(p + delta) mod capacity` and
lies in `[0, capacity)` for positions `p` in `[0, capacity)` — provided
`|delta| ≤ capacity`.  (The original claim's stronger quantification over
deltas of magnitude above `capacity` is refuted by
`move_index_large_delta_cx`: the source wraps at most once.) -/
theorem move_index_spec_thm (p delta capacity : ℤ) (hc : 0 < capacity)
    (hp0 : 0 ≤ p) (hp1 : p < capacity)
    (hd1 : -capacity ≤ delta) (hd2 : delta ≤ capacity) :
    move_index p delta capacity = (p + delta) % capacity ∧
    0 ≤ move_index p delta capacity ∧ move_index p delta capacity < capacity := by
  refine ⟨move_index_eq p delta capacity hc (by omega) (by omega), ?_⟩
  exact move_index_range p delta capacity hc (by omega) (by omega)

/-- C3 witness: concrete instance of `move_index_spec_thm` with a wrapping
positive delta. -/
theorem move_index_spec_witness :
    (0 : ℤ) < 8192 ∧
    (move_index 8000 500 8192 = (8000 + 500) % 8192 ∧
     0 ≤ move_index 8000 500 8192 ∧ move_index 8000 500 8192 < 8192) :=
  ⟨by decide, move_index_spec_thm 8000 500 8192 (by decide) (by decide) (by decide)
    (by decide) (by decide)⟩

/-- C3 counterexample: for `delta = 2 * capacity` the single conditional wrap
of the source leaves the result at `capacity`, which is neither
`(p + delta) mod capacity` nor inside `[0, capacity)`. -/
theorem move_index_large_delta_cx :
    move_index 0 16384 8192 = 8192 ∧
    (0 + 16384) % 8192 = 0 ∧ ¬ move_index 0 16384 8192 < 8192 := by
  decide

/-- C9: for positions `a, b` in `[0, capacity)`: `dist_forward(a,a) = 0`;
for `a ≠ b` the forward and backward distances sum to `capacity`;
`dist_backward(from,to) = dist_forward(to,from)`; and both distances are
non-negative. -/
theorem dist_spec (a b capacity : ℤ) (hc : 0 < capacity)
    (ha0 : 0 ≤ a) (ha1 : a < capacity) (hb0 : 0 ≤ b) (hb1 : b < capacity) :
    dist_forward a a capacity = 0 ∧
    (a ≠ b → dist_forward a b capacity + dist_backward a b capacity = capacity) ∧
    dist_backward a b capacity = dist_forward b a capacity ∧
    0 ≤ dist_forward a b capacity ∧ 0 ≤ dist_backward a b capacity := by
  unfold dist_backward dist_forward
  split_ifs <;> (refine ⟨by omega, fun h => by omega, by omega, by omega, by omega⟩)

/-- C9 witness: concrete instance of `dist_spec`. -/
theorem dist_spec_witness :
    (0 : ℤ) < 8192 ∧
    (dist_forward 17 17 8192 = 0 ∧
     ((17 : ℤ) ≠ 4000 → dist_forward 17 4000 8192 + dist_backward 17 4000 8192 = 8192) ∧
     dist_backward 17 4000 8192 = dist_forward 4000 17 8192 ∧
     0 ≤ dist_forward 17 4000 8192 ∧ 0 ≤ dist_backward 17 4000 8192) :=
  ⟨by decide, dist_spec 17 4000 8192 (by decide) (by decide) (by decide) (by decide)
    (by decide)⟩

lemma advance_loop_safe (w lam c : ℤ) (hc : 0 < c)
    (hw0 : 0 ≤ w) (hw1 : w < c) (hl0 : 0 ≤ lam) (hl1 : lam < c) :
    ∀ n : ℕ, ∀ r : ℤ, 0 ≤ r → r < c →
      (∃ k : ℕ, k < n ∧ VL ≤ (w - (r + (k : ℤ) * lam)) % c) →
      ∃ r' : ℤ, advance_loop n r w lam c = some r' ∧
        VL ≤ dist_forward r' w c ∧ 0 ≤ r' ∧ r' < c ∧
        ∃ j : ℕ, r' = (r + (j : ℤ) * lam) % c := by
  intro n
  induction n with
  | zero => intro r _ _ hk; omega
  | succ n ih =>
    intro r hr0 hr1 hk
    obtain ⟨k, hkn, hksafe⟩ := hk
    have hdf : dist_forward r w c = (w - r) % c :=
      dist_forward_eq_emod r w c hc hr0 hr1 hw0 hw1
    by_cases hsafe : dist_forward r w c < VL
    · -- loop body taken
      have hkne : k ≠ 0 := by
        intro h0
        subst h0
        simp only [Nat.cast_zero, zero_mul, add_zero] at hksafe
        omega
      have hrng := move_index_range r lam c hc (by omega) (by omega)
      have hreq : move_index r lam c = (r + lam) % c :=
        move_index_eq r lam c hc (by omega) (by omega)
      have hshift : ((r + lam) % c + ((k : ℤ) - 1) * lam) % c
          = (r + (k : ℤ) * lam) % c := by
        rw [emod_add_cancel]
        congr 1
        ring
      have hknew : ∃ k' : ℕ, k' < n ∧
          VL ≤ (w - (move_index r lam c + (k' : ℤ) * lam)) % c := by
        refine ⟨k - 1, by omega, ?_⟩
        rw [hreq]
        have hcast : ((k - 1 : ℕ) : ℤ) = (k : ℤ) - 1 := by
          omega
        rw [hcast]
        calc VL ≤ (w - (r + (k : ℤ) * lam)) % c := hksafe
        _ = (w - ((r + lam) % c + ((k : ℤ) - 1) * lam)) % c :=
            (emod_sub_congr w _ _ c hshift).symm
      obtain ⟨r', hloop, hsafe', hr'0, hr'1, j, hj⟩ :=
        ih (move_index r lam c) (by omega) (by omega) hknew
      refine ⟨r', ?_, hsafe', hr'0, hr'1, j + 1, ?_⟩
      · rw [show advance_loop (n+1) r w lam c
            = if dist_forward r w c < VL then
                advance_loop n (move_index r lam c) w lam c
              else some r from rfl, if_pos hsafe]
        exact hloop
      · rw [hj, hreq, emod_add_cancel]
        congr 1
        push_cast
        ring
    · -- loop exits now
      refine ⟨r, ?_, by omega, hr0, hr1, 0, ?_⟩
      · rw [show advance_loop (n+1) r w lam c
            = if dist_forward r w c < VL then
                advance_loop n (move_index r lam c) w lam c
              else some r from rfl, if_neg hsafe]
      · simp only [Nat.cast_zero, zero_mul, add_zero]
        exact (Int.emod_eq_of_lt hr0 hr1).symm

lemma exists_safe_k (c lam t V' : ℤ) (hc : 0 < c) (hV : 0 < V') (hlam : 1 ≤ lam)
    (hg : (Int.gcd lam c : ℤ) ≤ c - V') :
    ∃ k : ℕ, 1 ≤ k ∧ (k : ℤ) ≤ 2 * c ∧ V' ≤ (t - (k : ℤ) * lam) % c := by
  set g : ℤ := (Int.gcd lam c : ℤ) with hgdef
  have hgpos : 0 < g := by
    have hne : Int.gcd lam c ≠ 0 := by
      intro h
      have := Int.gcd_eq_zero_iff.mp h
      omega
    omega
  have hglam : g ∣ lam := Int.gcd_dvd_left
  have hgc : g ∣ c := Int.gcd_dvd_right
  -- target remainder s in [V', c)
  set s : ℤ := V' + (t - V') % g with hs
  have hmod_nonneg : 0 ≤ (t - V') % g := Int.emod_nonneg _ (by omega)
  have hmod_lt : (t - V') % g < g := Int.emod_lt_of_pos _ hgpos
  have hs1 : V' ≤ s := by omega
  have hs2 : s < c := by omega
  have hdvd : g ∣ (t - s) := by
    have h1 : (t - V') % g = (t - V') - g * ((t - V') / g) := Int.emod_def _ _
    exact ⟨(t - V') / g, by omega⟩
  obtain ⟨M, hM⟩ := hdvd
  -- Bezout coefficients for gcd(lam, c)
  have hbez : g = lam * Int.gcdA lam c + c * Int.gcdB lam c := Int.gcd_eq_gcd_ab lam c
  set A := Int.gcdA lam c with hA
  set B := Int.gcdB lam c with hB
  set k0 : ℤ := M * A with hk0
  have hkey : (t - k0 * lam) % c = s % c := by
    have h5 : k0 * lam = t - s - c * (M * B) := by
      have h6 : lam * A = g - c * B := by linarith [hbez]
      calc k0 * lam = M * (lam * A) := by rw [hk0]; ring
      _ = M * (g - c * B) := by rw [h6]
      _ = g * M - c * (M * B) := by ring
      _ = t - s - c * (M * B) := by rw [← hM]
    have h7 : t - k0 * lam = s + c * (M * B) := by linarith [h5]
    rw [h7, Int.add_mul_emod_self_left]
  -- pick a positive representative of k0 modulo c / g
  set cg : ℤ := c / g with hcg
  have hcgmul : g * cg = c := Int.mul_ediv_cancel' hgc
  have hcgpos : 0 < cg := by nlinarith
  obtain ⟨lam', hlam'⟩ := hglam
  have hperiod : ∀ m : ℤ, ((k0 + m * cg) * lam) % c = (k0 * lam) % c := by
    intro m
    have h8 : (k0 + m * cg) * lam = k0 * lam + c * (m * lam') := by
      calc (k0 + m * cg) * lam = k0 * lam + m * (cg * lam) := by ring
      _ = k0 * lam + m * (cg * (g * lam')) := by rw [← hlam']
      _ = k0 * lam + m * ((g * cg) * lam') := by ring
      _ = k0 * lam + m * (c * lam') := by rw [hcgmul]
      _ = k0 * lam + c * (m * lam') := by ring
    rw [h8, Int.add_mul_emod_self_left]
  set k1 : ℤ := k0 % cg + cg with hk1
  have hk1a : 0 ≤ k0 % cg := Int.emod_nonneg _ (by omega)
  have hk1b : k0 % cg < cg := Int.emod_lt_of_pos _ hcgpos
  have hk1pos : 1 ≤ k1 := by omega
  have hcgle : cg ≤ c := by nlinarith
  have hk1le : k1 ≤ 2 * c := by omega
  have hk1form : k1 = k0 + (1 - k0 / cg) * cg := by
    have h9 : k0 % cg = k0 - cg * (k0 / cg) := Int.emod_def _ _
    rw [hk1, h9]
    ring
  have hfinal : V' ≤ (t - k1 * lam) % c := by
    have h11 : (k1 * lam) % c = (k0 * lam) % c := by
      rw [hk1form]
      exact hperiod (1 - k0 / cg)
    have h12 : (t - k1 * lam) % c = (t - k0 * lam) % c :=
      emod_sub_congr t _ _ c h11
    have h13 : s % c = s := Int.emod_eq_of_lt (by omega) hs2
    rw [h12, hkey, h13]
    exact hs1
  refine ⟨k1.toNat, by omega, ?_, ?_⟩
  · rw [Int.toNat_of_nonneg (by omega)]
    exact hk1le
  · rw [Int.toNat_of_nonneg (by omega)]
    exact hfinal

lemma advance_index_safe_general (c w r : ℤ) (freq : ℚ)
    (hc : 1024 < c) (hw0 : 0 ≤ w) (hw1 : w < c) (hr0 : 0 ≤ r) (hr1 : r < c)
    (hl1 : 1 ≤ wavelength freq) (hl2 : wavelength freq < c)
    (hg : (Int.gcd (wavelength freq) c : ℤ) ≤ c - 1024) :
    ∃ r' : ℤ, advance_index (2 * c).toNat w r freq c = some r' ∧
      1024 ≤ dist_forward r' w c ∧
      ∃ k : ℕ, 1 ≤ k ∧ r' = (r + (k : ℤ) * wavelength freq) % c := by
  set lam := wavelength freq with hlam
  obtain ⟨ks, hks1, hks2, hkssafe⟩ :=
    exists_safe_k c lam (w - r) 1024 (by omega) (by omega) hl1 hg
  have hr1rng := move_index_range r lam c (by omega) (by omega) (by omega)
  have hr1eq : move_index r lam c = (r + lam) % c :=
    move_index_eq r lam c (by omega) (by omega) (by omega)
  have hkstart : ∃ k : ℕ, k < (2 * c).toNat ∧
      VL ≤ (w - (move_index r lam c + (k : ℤ) * lam)) % c := by
    refine ⟨ks - 1, by omega, ?_⟩
    rw [hr1eq]
    have hcast : ((ks - 1 : ℕ) : ℤ) = (ks : ℤ) - 1 := by omega
    rw [hcast]
    have hshift : ((r + lam) % c + ((ks : ℤ) - 1) * lam) % c
        = (r + (ks : ℤ) * lam) % c := by
      rw [emod_add_cancel]
      congr 1
      ring
    have : (w - (r + (ks : ℤ) * lam)) % c = (w - r - (ks : ℤ) * lam) % c := by
      congr 1
      ring
    rw [VL_val, emod_sub_congr w _ _ c hshift, this]
    exact hkssafe
  obtain ⟨r', hloop, hsafe, _, _, j, hj⟩ :=
    advance_loop_safe w lam c (by omega) hw0 hw1 (by omega) hl2
      (2 * c).toNat (move_index r lam c) (by omega) (by omega) hkstart
  have hsafe' : 1024 ≤ dist_forward r' w c := by
    have hVL := VL_val
    omega
  refine ⟨r', hloop, hsafe', j + 1, by omega, ?_⟩
  rw [hj, hr1eq, emod_add_cancel]
  congr 1
  push_cast
  ring

lemma two_mul_le_of_dvd_of_lt (d n : ℕ) (hd : d ∣ n) (h : d < n) : 2 * d ≤ n := by
  obtain ⟨m, rfl⟩ := hd
  rcases m with _ | _ | m
  · omega
  · omega
  · have h2 : d * 2 ≤ d * (m + 1 + 1) := Nat.mul_le_mul_left d (by omega)
    omega

lemma gcd_with_8192_le (lam : ℤ) (h1 : 1 ≤ lam) (h2 : lam < 8192) :
    (Int.gcd lam 8192 : ℤ) ≤ 7168 := by
  have hdvd : Int.gcd lam 8192 ∣ 8192 := Nat.gcd_dvd_right _ _
  have hle : Int.gcd lam 8192 ≤ lam.natAbs := Nat.gcd_le_left _ (by omega)
  have hlt : Int.gcd lam 8192 < 8192 := by omega
  have := two_mul_le_of_dvd_of_lt _ _ hdvd hlt
  omega

/-- C2: for every capacity above the window length `V = 1024`, cursors in
range and a locked frequency whose rounded wavelength `λ` satisfies
`1 ≤ λ < capacity` — and additionally `gcd(λ, capacity) ≤ capacity - V`,
which always holds for the program's capacity `TBL = 8192` — `advance_index`
returns a cursor `r'` with `dist_forward(r', w, capacity) ≥ V` that equals
`(r + k·λ) mod capacity` for some `k ≥ 1`.  (Without the gcd bound the skip
loop can cycle forever; see `advance_index_diverges_cx`.) -/
theorem advance_index_safe_spec (capacity w r : ℤ) (freq : ℚ)
    (hc : 1024 < capacity) (hw0 : 0 ≤ w) (hw1 : w < capacity)
    (hr0 : 0 ≤ r) (hr1 : r < capacity)
    (hl1 : 1 ≤ wavelength freq) (hl2 : wavelength freq < capacity)
    (hg : (Int.gcd (wavelength freq) capacity : ℤ) ≤ capacity - 1024) :
    ∃ r' : ℤ, advance_index (2 * capacity).toNat w r freq capacity = some r' ∧
      1024 ≤ dist_forward r' w capacity ∧
      ∃ k : ℕ, 1 ≤ k ∧ r' = (r + (k : ℤ) * wavelength freq) % capacity :=
  advance_index_safe_general capacity w r freq hc hw0 hw1 hr0 hr1 hl1 hl2 hg

lemma wavelength_60 : wavelength 60 = 800 := by
  norm_num [wavelength, SR]

/-- C2 witness: the program's configuration (`capacity = TBL = 8192`) with a
60 Hz locked frequency (`λ = 800`). -/
theorem advance_index_safe_spec_witness :
    (1024 : ℤ) < 8192 ∧ 1 ≤ wavelength 60 ∧ wavelength 60 < 8192 ∧
    (Int.gcd (wavelength 60) 8192 : ℤ) ≤ 8192 - 1024 ∧
    ∃ r' : ℤ, advance_index (2 * (8192 : ℤ)).toNat 0 0 60 8192 = some r' ∧
      1024 ≤ dist_forward r' 0 8192 ∧
      ∃ k : ℕ, 1 ≤ k ∧ r' = (0 + (k : ℤ) * wavelength 60) % 8192 :=
  ⟨by decide, by rw [wavelength_60]; decide, by rw [wavelength_60]; decide,
    by rw [wavelength_60]; decide,
    advance_index_safe_spec 8192 0 0 60 (by decide) (by decide) (by decide)
      (by decide) (by decide) (by rw [wavelength_60]; decide)
      (by rw [wavelength_60]; decide) (by rw [wavelength_60]; decide)⟩

lemma wavelength_div513 : wavelength (48000 / 513) = 513 := by
  norm_num [wavelength, SR]

lemma diverge_aux :
    ∀ n : ℕ, advance_loop n 0 0 513 1026 = none ∧ advance_loop n 513 0 513 1026 = none := by
  intro n
  induction n with
  | zero => exact ⟨rfl, rfl⟩
  | succ n ih =>
    constructor
    · rw [show advance_loop (n+1) 0 0 513 1026
          = if dist_forward 0 0 1026 < VL then
              advance_loop n (move_index 0 513 1026) 0 513 1026
            else some 0 from rfl]
      rw [if_pos (by decide), show move_index 0 513 1026 = 513 from rfl]
      exact ih.2
    · rw [show advance_loop (n+1) 513 0 513 1026
          = if dist_forward 513 0 1026 < VL then
              advance_loop n (move_index 513 513 1026) 0 513 1026
            else some 513 from rfl]
      rw [if_pos (by decide), show move_index 513 513 1026 = 0 from rfl]
      exact ih.1

/-- C2 counterexample: with capacity 1026 (> V = 1024), `w = r = 0` and a
locked frequency of 48000/513 Hz (rounded wavelength `λ = 513`, satisfying
`1 ≤ λ < capacity`), the skip loop of `advance_index` alternates forever
between positions 513 and 0, both of which are within `V` of the writer, so
no result is ever produced — refuting the claim for arbitrary capacities. -/
theorem advance_index_diverges_cx :
    advance_never_returns 0 0 (48000 / 513) 1026 ∧
    wavelength (48000 / 513) = 513 ∧ (1024 : ℤ) < 1026 := by
  refine ⟨?_, wavelength_div513, by decide⟩
  intro fuel
  unfold advance_index
  rw [wavelength_div513, show move_index 0 513 1026 = 513 from rfl]
  exact (diverge_aux fuel).2

/-- C10: with the program's configuration (`TBL = 8192`, `V = 1024`), the
skip-past-the-discontinuity loop of `advance_index` terminates for every
pair of in-range cursors and every rounded wavelength `1 ≤ λ < TBL`:
`16384 = 2·TBL` units of fuel always suffice (an in-gcd-steps spaced orbit
cannot stay inside the length-`V` unsafe zone since
`gcd(λ, 8192) ≤ 4096 ≤ 8192 - 1024`). -/
theorem advance_terminates (w r : ℤ) (freq : ℚ)
    (hw0 : 0 ≤ w) (hw1 : w < 8192) (hr0 : 0 ≤ r) (hr1 : r < 8192)
    (hl1 : 1 ≤ wavelength freq) (hl2 : wavelength freq < 8192) :
    (advance_index 16384 w r freq 8192).isSome = true := by
  have hg : (Int.gcd (wavelength freq) 8192 : ℤ) ≤ 8192 - 1024 := by
    have := gcd_with_8192_le (wavelength freq) hl1 hl2
    omega
  obtain ⟨r', hsome, -⟩ :=
    advance_index_safe_general 8192 w r freq (by omega) hw0 hw1 hr0 hr1 hl1 hl2 hg
  have hfuel : (2 * (8192 : ℤ)).toNat = 16384 := rfl
  rw [hfuel] at hsome
  rw [hsome]
  rfl

/-- C10 witness: termination at the program's configuration for a 60 Hz
locked frequency. -/
theorem advance_terminates_witness :
    1 ≤ wavelength 60 ∧ wavelength 60 < 8192 ∧
    (advance_index 16384 0 0 60 8192).isSome = true :=
  ⟨by rw [wavelength_60]; decide, by rw [wavelength_60]; decide,
    advance_terminates 0 0 60 (by decide) (by decide) (by decide) (by decide)
      (by rw [wavelength_60]; decide) (by rw [wavelength_60]; decide)⟩

lemma xcorr_go_prop (score : ℤ → ℚ) (P : ℤ → Prop) :
    ∀ n : ℕ, ∀ r max_r : ℤ, ∀ max_md : WithBot ℚ,
      0 ≤ r → r < TBL → P max_r →
      (∀ k : ℕ, k < n → P ((r + 3 * (k : ℤ)) % TBL)) →
      P (xcorr_go score n r max_r max_md) := by
  intro n
  induction n with
  | zero => intro r max_r max_md _ _ hmr _; exact hmr
  | succ n ih =>
    intro r max_r max_md hr0 hr1 hmr hks
    have hTBL : TBL = 8192 := TBL_val
    have hmv : move_index r HISTORY_SEARCH_GRANULARITY TBL = (r + 3) % TBL := by
      rw [show HISTORY_SEARCH_GRANULARITY = 3 from rfl]
      exact move_index_eq r 3 TBL (by omega) (by omega) (by omega)
    have hmv0 : 0 ≤ (r + 3) % TBL := Int.emod_nonneg _ (by omega)
    have hmv1 : (r + 3) % TBL < TBL := Int.emod_lt_of_pos _ (by omega)
    have hnext : ∀ k : ℕ, k < n → P (((r + 3) % TBL + 3 * (k : ℤ)) % TBL) := by
      intro k hk
      have hsh : ((r + 3) % TBL + 3 * (k : ℤ)) % TBL
          = (r + 3 * ((k : ℤ) + 1)) % TBL := by
        rw [emod_add_cancel]
        congr 1
        ring
      rw [hsh]
      have := hks (k + 1) (by omega)
      push_cast at this ⊢
      exact this
    have hPr : P r := by
      have := hks 0 (by omega)
      simp only [Nat.cast_zero, mul_zero, add_zero] at this
      rwa [Int.emod_eq_of_lt hr0 hr1] at this
    rw [show xcorr_go score (n+1) r max_r max_md
        = if max_md < ((score r : ℚ) : WithBot ℚ) then
            xcorr_go score n (move_index r HISTORY_SEARCH_GRANULARITY TBL) r
              ((score r : ℚ) : WithBot ℚ)
          else
            xcorr_go score n (move_index r HISTORY_SEARCH_GRANULARITY TBL) max_r max_md
        from rfl]
    split_ifs with hcmp
    · rw [hmv]
      exact ih _ r _ hmv0 hmv1 hPr hnext
    · rw [hmv]
      exact ih _ max_r _ hmv0 hmv1 hmr hnext

/-- C6: the cursor returned by `cross_correlation_sync` with the program's
search radius `D = HISTORY_SEARCH_RANGE = 350` and granularity `G = 3` is one
of the scanned candidates `(r - D/2 + i·G) mod TBL` for some
`0 ≤ i < D/G = 116`, for every history ring, capture buffer, frame id and
envelope; consequently the returned cursor stays within the search window:
the shorter circular distance between it and the wavelength-advanced cursor
`r` is at most `D`. -/
theorem xcorr_returns_candidate (w r frame_id : ℤ) (prev_buff : ℤ → ℤ → ℚ)
    (buff : ℤ → ℚ) (channel_max : ℚ) (hr0 : 0 ≤ r) (hr1 : r < 8192) :
    ∃ i : ℕ, i < 116 ∧
      cross_correlation_sync w r 350 prev_buff frame_id buff channel_max
        = (r - 175 + 3 * (i : ℤ)) % 8192 ∧
      min (dist_forward r (cross_correlation_sync w r 350 prev_buff frame_id buff channel_max) 8192)
          (dist_forward (cross_correlation_sync w r 350 prev_buff frame_id buff channel_max) r 8192)
        ≤ 350 := by
  have hTBL : TBL = 8192 := TBL_val
  have hr0eq : move_index r (-350 / 2) TBL = (r - 175) % TBL := by
    rw [show (-350 / 2 : ℤ) = -175 from rfl,
      move_index_eq r (-175) TBL (by omega) (by omega) (by omega)]
    congr 1
  have hcc : cross_correlation_sync w r 350 prev_buff frame_id buff channel_max
      = xcorr_go (xcorr_score prev_buff frame_id buff channel_max) 116
          ((r - 175) % TBL) ((r - 175) % TBL) ⊥ := by
    rw [show cross_correlation_sync w r 350 prev_buff frame_id buff channel_max
        = xcorr_go (xcorr_score prev_buff frame_id buff channel_max)
            ((350 / HISTORY_SEARCH_GRANULARITY : ℤ)).toNat
            (move_index r (-350 / 2) TBL) (move_index r (-350 / 2) TBL) ⊥ from rfl]
    rw [show ((350 / HISTORY_SEARCH_GRANULARITY : ℤ)).toNat = 116 from rfl, hr0eq]
  have hb0 : 0 ≤ (r - 175) % TBL := Int.emod_nonneg _ (by omega)
  have hb1 : (r - 175) % TBL < TBL := Int.emod_lt_of_pos _ (by omega)
  have hbase0 : (r - 175) % TBL = (r - 175 + 3 * ((0 : ℕ) : ℤ)) % 8192 := by
    rw [hTBL]
    norm_num
  have hsteps : ∀ k : ℕ, k < 116 →
      ∃ i : ℕ, i < 116 ∧ ((r - 175) % TBL + 3 * (k : ℤ)) % TBL
        = (r - 175 + 3 * (i : ℤ)) % 8192 := by
    intro k hk
    refine ⟨k, hk, ?_⟩
    rw [emod_add_cancel, hTBL]
  have hP : ∃ i : ℕ, i < 116 ∧
      xcorr_go (xcorr_score prev_buff frame_id buff channel_max) 116
        ((r - 175) % TBL) ((r - 175) % TBL) ⊥ = (r - 175 + 3 * (i : ℤ)) % 8192 :=
    xcorr_go_prop _ (fun x => ∃ i : ℕ, i < 116 ∧ x = (r - 175 + 3 * (i : ℤ)) % 8192)
      116 _ _ ⊥ hb0 hb1 ⟨0, by omega, hbase0⟩ hsteps
  obtain ⟨i, hi, hx⟩ := hP
  rw [← hcc] at hx
  refine ⟨i, hi, hx, ?_⟩
  rw [hx]
  have hd := Int.emod_def (r - 175 + 3 * (i : ℤ)) 8192
  have hn := Int.emod_nonneg (r - 175 + 3 * (i : ℤ)) (by norm_num : (8192 : ℤ) ≠ 0)
  have hl := Int.emod_lt_of_pos (r - 175 + 3 * (i : ℤ)) (by norm_num : (0 : ℤ) < 8192)
  have hq : (r - 175 + 3 * (i : ℤ)) / 8192 = -1 ∨ (r - 175 + 3 * (i : ℤ)) / 8192 = 0 ∨
      (r - 175 + 3 * (i : ℤ)) / 8192 = 1 := by omega
  simp only [min_le_iff]
  unfold dist_forward
  rcases hq with h | h | h <;> (rw [h] at hd; split_ifs <;> omega)

/-- C6 witness: concrete instance of `xcorr_returns_candidate` at cursor 0
with the zero-initialized buffers. -/
theorem xcorr_returns_candidate_witness :
    (0 : ℤ) ≤ 0 ∧
    ∃ i : ℕ, i < 116 ∧
      cross_correlation_sync 0 0 350 zero_hist 0 zero_buff 1
        = (0 - 175 + 3 * (i : ℤ)) % 8192 ∧
      min (dist_forward 0 (cross_correlation_sync 0 0 350 zero_hist 0 zero_buff 1) 8192)
          (dist_forward (cross_correlation_sync 0 0 350 zero_hist 0 zero_buff 1) 0 8192)
        ≤ 350 :=
  ⟨by decide, xcorr_returns_candidate 0 0 0 zero_hist zero_buff 1 (by decide) (by decide)⟩

lemma xcorr_score_zero (prev_buff : ℤ → ℤ → ℚ) (frame_id : ℤ) (buff : ℤ → ℚ)
    (channel_max : ℚ) (hp : ∀ j x, prev_buff j x = 0) :
    ∀ rc : ℤ, xcorr_score prev_buff frame_id buff channel_max rc = 0 := by
  intro rc
  unfold xcorr_score reverse_dot_prod
  refine Finset.sum_eq_zero fun b _ => Finset.sum_eq_zero fun i _ => ?_
  rw [hp, mul_zero]

lemma xcorr_go_const_zero (score : ℤ → ℚ) (h : ∀ x, score x = 0) :
    ∀ n : ℕ, ∀ r mr : ℤ, xcorr_go score n r mr (((0 : ℚ) : WithBot ℚ)) = mr := by
  intro n
  induction n with
  | zero => intro r mr; rfl
  | succ n ih =>
    intro r mr
    rw [show xcorr_go score (n+1) r mr (((0 : ℚ) : WithBot ℚ))
        = if ((0 : ℚ) : WithBot ℚ) < ((score r : ℚ) : WithBot ℚ) then
            xcorr_go score n (move_index r HISTORY_SEARCH_GRANULARITY TBL) r
              ((score r : ℚ) : WithBot ℚ)
          else
            xcorr_go score n (move_index r HISTORY_SEARCH_GRANULARITY TBL) mr
              (((0 : ℚ) : WithBot ℚ))
        from rfl]
    rw [h r, if_neg (lt_irrefl _)]
    exact ih _ mr

lemma xcorr_go_bot_zero (score : ℤ → ℚ) (h : ∀ x, score x = 0) :
    ∀ n : ℕ, ∀ r mr : ℤ, xcorr_go score (n + 1) r mr ⊥ = r := by
  intro n r mr
  rw [show xcorr_go score (n+1) r mr ⊥
      = if (⊥ : WithBot ℚ) < ((score r : ℚ) : WithBot ℚ) then
          xcorr_go score n (move_index r HISTORY_SEARCH_GRANULARITY TBL) r
            ((score r : ℚ) : WithBot ℚ)
        else
          xcorr_go score n (move_index r HISTORY_SEARCH_GRANULARITY TBL) mr ⊥
      from rfl]
  rw [if_pos (WithBot.bot_lt_coe _), h r]
  exact xcorr_go_const_zero score h n _ r

lemma xcorr_zero_history (w r : ℤ) (prev_buff : ℤ → ℤ → ℚ) (frame_id : ℤ)
    (buff : ℤ → ℚ) (channel_max : ℚ) (hp : ∀ j x, prev_buff j x = 0) :
    cross_correlation_sync w r 350 prev_buff frame_id buff channel_max
      = move_index r (-175) TBL := by
  rw [show cross_correlation_sync w r 350 prev_buff frame_id buff channel_max
      = xcorr_go (xcorr_score prev_buff frame_id buff channel_max)
          ((350 / HISTORY_SEARCH_GRANULARITY : ℤ)).toNat
          (move_index r (-350 / 2) TBL) (move_index r (-350 / 2) TBL) ⊥ from rfl]
  rw [show ((350 / HISTORY_SEARCH_GRANULARITY : ℤ)).toNat = 115 + 1 from rfl,
    show (-350 / 2 : ℤ) = -175 from rfl]
  exact xcorr_go_bot_zero _ (xcorr_score_zero prev_buff frame_id buff channel_max hp) 115 _ _

/-- C1 counterexample: at the start of a cycle with `w = 0`, `r = 7393`, a
locked frequency of 60 Hz (wavelength 800) and xcorr sync enabled, the
wavelength advance lands on cursor 1 (forward distance 8191 ≥ V = 1024), but
the cross-correlation pass over the zero-initialized history ring returns
the start of its scan window, cursor 8018, whose forward distance to the
writer is only 174 < V = 1024: the cursor actually used to emit the window
violates the claimed invariant. -/
theorem emit_unsafe_with_xcorr_cx :
    emitted_reader 16384 true 0 7393 60 zero_hist 0 zero_buff 1 = some 8018 ∧
    dist_forward 8018 0 8192 < 1024 := by
  constructor
  · unfold emitted_reader
    have hadv : advance_index 16384 0 7393 60 TBL = some 1 := by
      unfold advance_index
      rw [wavelength_60]
      rw [show move_index 7393 800 TBL = 1 from rfl]
      rw [show (16384 : ℕ) = 16383 + 1 from rfl]
      rw [show advance_loop (16383 + 1) 1 0 800 TBL
          = if dist_forward 1 0 TBL < VL then
              advance_loop 16383 (move_index 1 800 TBL) 0 800 TBL
            else some 1 from rfl]
      rw [if_neg (by decide)]
    rw [hadv]
    rw [Option.map_some']
    rw [if_pos rfl]
    rw [show HISTORY_SEARCH_RANGE = 350 from rfl]
    rw [xcorr_zero_history 0 1 zero_hist 0 zero_buff 1 (fun _ _ => rfl)]
    rfl
  · decide

/-- C1: the read cursor used to emit the output window satisfies
`dist_forward(read, write, TBL) ≥ V` after the wavelength advance — i.e.
whenever cross-correlation sync is disabled, the emitted cursor keeps the
claimed safety margin.  When xcorr sync is enabled, the adjusted cursor can
violate the margin (see `emit_unsafe_with_xcorr_cx`): the synchronizer picks
any candidate within its search window without re-checking the distance. -/
theorem emit_safe_without_xcorr (w r : ℤ) (freq : ℚ) (prev_buff : ℤ → ℤ → ℚ)
    (frame_id : ℤ) (buff : ℤ → ℚ) (channel_max : ℚ)
    (hw0 : 0 ≤ w) (hw1 : w < 8192) (hr0 : 0 ≤ r) (hr1 : r < 8192)
    (hl1 : 1 ≤ wavelength freq) (hl2 : wavelength freq < 8192) :
    ∃ r' : ℤ,
      emitted_reader 16384 false w r freq prev_buff frame_id buff channel_max = some r' ∧
      1024 ≤ dist_forward r' w 8192 := by
  have hg : (Int.gcd (wavelength freq) 8192 : ℤ) ≤ 8192 - 1024 := by
    have := gcd_with_8192_le (wavelength freq) hl1 hl2
    omega
  obtain ⟨r', hsome, hsafe, -⟩ :=
    advance_index_safe_general 8192 w r freq (by omega) hw0 hw1 hr0 hr1 hl1 hl2 hg
  have hfuel : (2 * (8192 : ℤ)).toNat = 16384 := rfl
  rw [hfuel] at hsome
  refine ⟨r', ?_, hsafe⟩
  unfold emitted_reader
  rw [show TBL = (8192 : ℤ) from rfl, hsome, Option.map_some', if_neg (by decide)]

/-- C1 witness: concrete instance of `emit_safe_without_xcorr` at the
initial state with a 60 Hz locked frequency. -/
theorem emit_safe_without_xcorr_witness :
    1 ≤ wavelength 60 ∧ wavelength 60 < 8192 ∧
    ∃ r' : ℤ,
      emitted_reader 16384 false 0 0 60 zero_hist 0 zero_buff 1 = some r' ∧
      1024 ≤ dist_forward r' 0 8192 :=
  ⟨by rw [wavelength_60]; decide, by rw [wavelength_60]; decide,
    emit_safe_without_xcorr 0 0 60 zero_hist 0 zero_buff 1 (by decide) (by decide)
      (by decide) (by decide) (by rw [wavelength_60]; decide)
      (by rw [wavelength_60]; decide)⟩

lemma pacer_drive_spec (t0 : ℤ) (h1 : 0 < t0) (h2 : t0 ≤ 60000000) :
    ∀ n : ℕ, (pacer_drive t0 n).frame_id = (n : ℤ) ∧
      (pacer_drive t0 n).next_time = ((n : ℤ) + 1) * _60fpsDura := by
  intro n
  induction n with
  | zero =>
    constructor
    · rfl
    · show _60fpsDura = ((0 : ℤ) + 1) * _60fpsDura
      ring
  | succ n ih =>
    obtain ⟨ihf, ihn⟩ := ih
    have hD : _60fpsDura = 16666667 := rfl
    rw [show pacer_drive t0 (n + 1)
        = (pacer_step (t0 + ((n : ℤ) + 1) * _60fpsDura) (pacer_drive t0 n)).1 from rfl]
    unfold pacer_step
    rw [ihn, ihf]
    have hdiff : ¬ (t0 + ((n : ℤ) + 1) * _60fpsDura - ((n : ℤ) + 1) * _60fpsDura > 60000000) := by
      omega
    rw [if_neg hdiff]
    have hgt : t0 + ((n : ℤ) + 1) * _60fpsDura > ((n : ℤ) + 1) * _60fpsDura := by omega
    rw [if_pos hgt]
    constructor
    · show (n : ℤ) + 1 = ((n + 1 : ℕ) : ℤ)
      push_cast
      ring
    · show ((n : ℤ) + 1) * _60fpsDura + _60fpsDura = (((n + 1 : ℕ) : ℤ) + 1) * _60fpsDura
      push_cast
      ring

/-- C4: `pacer_step` runs a processing cycle exactly when the clock reading is
strictly past the (possibly snapped) target; after a cycle the target
advances by exactly one fixed period and the frame counter by exactly 1;
when the reading has drifted more than 60 ms past the target, the target is
snapped to now minus 1 ms; and driving the clock by exactly one period per
call, starting strictly past the initial target (offset `0 < t0 ≤ 60 ms`),
emits exactly one frame per call.  (The original claim's wording "reached or
passed" and its frame-per-call scenario fail at exact equality `now =
next_time`, where the source's strict `>` runs no cycle; see
`pacer_boundary_cx`.) -/
theorem pacer_spec (now : ℤ) (s : PacerState) :
    ((pacer_step now s).2 = true ↔
      now > (if now - s.next_time > 60000000 then now - 1000000 else s.next_time)) ∧
    ((pacer_step now s).2 = true →
      (pacer_step now s).1.next_time
        = (if now - s.next_time > 60000000 then now - 1000000 else s.next_time) + _60fpsDura ∧
      (pacer_step now s).1.frame_id = s.frame_id + 1) ∧
    ((pacer_step now s).2 = false →
      (pacer_step now s).1.next_time
        = (if now - s.next_time > 60000000 then now - 1000000 else s.next_time) ∧
      (pacer_step now s).1.frame_id = s.frame_id) ∧
    (now - s.next_time > 60000000 →
      (if now - s.next_time > 60000000 then now - 1000000 else s.next_time) = now - 1000000) ∧
    (∀ t0 : ℤ, ∀ n : ℕ, 0 < t0 → t0 ≤ 60000000 →
      (pacer_drive t0 n).frame_id = (n : ℤ) ∧
      (pacer_drive t0 n).next_time = ((n : ℤ) + 1) * _60fpsDura) := by
  have hstep : pacer_step now s
      = if now > (if now - s.next_time > 60000000 then now - 1000000 else s.next_time) then
          (⟨(if now - s.next_time > 60000000 then now - 1000000 else s.next_time)
              + _60fpsDura, s.frame_id + 1⟩, true)
        else
          (⟨(if now - s.next_time > 60000000 then now - 1000000 else s.next_time),
              s.frame_id⟩, false) := rfl
  set n1 : ℤ := if now - s.next_time > 60000000 then now - 1000000 else s.next_time with hn1
  by_cases h : now > n1
  · rw [hstep, if_pos h]
    exact ⟨by simp [h], fun _ => ⟨rfl, rfl⟩, by simp,
      fun hd => by rw [hn1, if_pos hd], fun t0 n h1 h2 => pacer_drive_spec t0 h1 h2 n⟩
  · rw [hstep, if_neg h]
    exact ⟨by simp [h], by simp, fun _ => ⟨rfl, rfl⟩,
      fun hd => by rw [hn1, if_pos hd], fun t0 n h1 h2 => pacer_drive_spec t0 h1 h2 n⟩

/-- C4 witness: a clock strictly past the target runs a cycle, and driving
the pacer with per-call period steps from offset 1 ns emits one frame per
call. -/
theorem pacer_spec_witness :
    (pacer_step 16666668 pacer_init).2 = true ∧ (pacer_drive 1 2).frame_id = 2 := by
  constructor
  · exact (pacer_spec 16666668 pacer_init).1.mpr (by decide)
  · exact ((pacer_spec 0 pacer_init).2.2.2.2 1 2 (by decide) (by decide)).1

/-- C4 counterexample: when the clock reading has exactly reached the target
(`now = next_time = _60fpsDura`, i.e. the clock advanced by exactly one
period per call starting from the epoch), the source's strict comparison
runs no cycle and emits no frame, refuting "reached or passed" and
"exactly one frame per call" on the first call. -/
theorem pacer_boundary_cx :
    (pacer_step _60fpsDura pacer_init).2 = false ∧
    pacer_init.next_time ≤ _60fpsDura ∧
    (pacer_drive 0 1).frame_id = 0 := by
  decide

/-- C7: the `AudioProcess` constructor is fatal exactly on a configuration
mismatch: a stream whose sample rate differs from 48000 or whose maximum
chunk size is below `ABL` makes construction fail before any processing
cycle can run, and a conforming stream yields the fully initialized state
(the constructor is the only fatal path in the class). -/
theorem construct_validates (s : AudioStreamInfo) (o : AudioOptions) :
    ((s.sample_rate ≠ 48000 ∨ s.max_buff_size < ABL) →
      construct s o = Except.error ()) ∧
    (s.sample_rate = 48000 → ABL ≤ s.max_buff_size →
      construct s o = Except.ok (init_state o)) := by
  unfold construct
  constructor
  · intro h
    split_ifs with h1 h2
    · rfl
    · rfl
    · exfalso
      rcases h with h | h
      · exact h1 h
      · exact h2 h
  · intro h1 h2
    rw [if_neg (by omega), if_neg (by omega)]

/-- C7 witness: a conforming stream (48000 Hz, chunk size 512) constructs
successfully; a 44100 Hz stream is rejected. -/
theorem construct_validates_witness :
    ((44100 : ℤ) ≠ 48000 ∨ (512 : ℤ) < ABL) ∧
    construct ⟨44100, 512⟩ ⟨false, false, 0⟩ = Except.error () ∧
    construct ⟨48000, 512⟩ ⟨false, false, 0⟩ = Except.ok (init_state ⟨false, false, 0⟩) :=
  ⟨Or.inl (by decide),
    (construct_validates ⟨44100, 512⟩ ⟨false, false, 0⟩).1 (Or.inl (by decide)),
    (construct_validates ⟨48000, 512⟩ ⟨false, false, 0⟩).2 (by decide) (by decide)⟩

lemma pow_two_le_iff_le_logb (freq thres : ℝ) (hf : 0 < freq) (ht : 0 < thres) :
    ∀ j : ℤ, (freq * (2 : ℝ) ^ j ≤ thres ↔ (j : ℝ) ≤ Real.logb 2 (thres / freq)) := by
  intro j
  have h1 : freq * (2 : ℝ) ^ j ≤ thres ↔ (2 : ℝ) ^ j ≤ thres / freq := by
    rw [mul_comm, ← le_div_iff₀ hf]
  have h2 : ((2 : ℝ) ^ j : ℝ) = (2 : ℝ) ^ (j : ℝ) := (Real.rpow_intCast 2 j).symm
  have h3 : thres / freq = (2 : ℝ) ^ Real.logb 2 (thres / freq) :=
    (Real.rpow_logb (by norm_num) (by norm_num) (by positivity)).symm
  rw [h1, h2]
  conv_lhs => rw [h3]
  exact Real.rpow_le_rpow_left_iff (by norm_num)

/-- C5: for positive `freq` and `thres` the harmonic fold returns
`freq * 2^k` for the integer `k = ⌊log2 thres - log2 freq⌋`; this folded
value does not exceed `thres` and is the largest power-of-two multiple of
`freq` that does not; any non-positive `freq` (the degenerate inputs whose
float fold is not a normal number) yields the default pitch 60. -/
theorem harmonic_fold_spec (freq thres : ℝ) (hf : 0 < freq) (ht : 0 < thres) :
    get_harmonic_less_than freq thres
      = freq * (2 : ℝ) ^ ⌊Real.logb 2 thres - Real.logb 2 freq⌋ ∧
    get_harmonic_less_than freq thres ≤ thres ∧
    (∀ j : ℤ, freq * (2 : ℝ) ^ j ≤ thres →
      freq * (2 : ℝ) ^ j ≤ get_harmonic_less_than freq thres) ∧
    (∀ bad : ℝ, bad ≤ 0 → get_harmonic_less_than bad thres = 60) := by
  have hx : Real.logb 2 thres - Real.logb 2 freq = Real.logb 2 (thres / freq) :=
    (Real.logb_div (ne_of_gt ht) (ne_of_gt hf)).symm
  have heq : get_harmonic_less_than freq thres
      = freq * (2 : ℝ) ^ ⌊Real.logb 2 thres - Real.logb 2 freq⌋ := by
    unfold get_harmonic_less_than
    rw [if_pos ⟨hf, ht⟩]
  refine ⟨heq, ?_, ?_, ?_⟩
  · rw [heq, hx]
    exact (pow_two_le_iff_le_logb freq thres hf ht _).mpr (Int.floor_le _)
  · intro j hj
    rw [heq, hx]
    have hjle : j ≤ ⌊Real.logb 2 (thres / freq)⌋ :=
      Int.le_floor.mpr ((pow_two_le_iff_le_logb freq thres hf ht j).mp hj)
    have hmono : (2 : ℝ) ^ j ≤ (2 : ℝ) ^ ⌊Real.logb 2 (thres / freq)⌋ := by
      rw [← Real.rpow_intCast 2 j, ← Real.rpow_intCast 2 ⌊Real.logb 2 (thres / freq)⌋]
      exact (Real.rpow_le_rpow_left_iff (by norm_num)).mpr (by exact_mod_cast hjle)
    exact mul_le_mul_of_nonneg_left hmono (le_of_lt hf)
  · intro bad hbad
    unfold get_harmonic_less_than
    rw [if_neg]
    intro hh
    exact absurd hh.1 (not_lt.mpr hbad)

/-- C5 witness: instance of `harmonic_fold_spec` at the program's threshold
80 and a 60 Hz raw frequency. -/
theorem harmonic_fold_spec_witness :
    (0 : ℝ) < 60 ∧ (0 : ℝ) < 80 ∧
    (get_harmonic_less_than 60 80
        = 60 * (2 : ℝ) ^ ⌊Real.logb 2 80 - Real.logb 2 60⌋ ∧
      get_harmonic_less_than 60 80 ≤ 80 ∧
      (∀ j : ℤ, 60 * (2 : ℝ) ^ j ≤ 80 →
        60 * (2 : ℝ) ^ j ≤ get_harmonic_less_than 60 80) ∧
      (∀ bad : ℝ, bad ≤ 0 → get_harmonic_less_than bad 80 = 60)) :=
  ⟨by norm_num, by norm_num, harmonic_fold_spec 60 80 (by norm_num) (by norm_num)⟩

lemma max_bin_foldl_ge (f : ℕ → ℂ) :
    ∀ l : List ℕ, ∀ s : ℝ × ℕ,
      s.1 ≤ (l.foldl (max_bin_step f) s).1 ∧
      ∀ i ∈ l, Complex.abs (f i) ≤ (l.foldl (max_bin_step f) s).1 := by
  intro l
  induction l with
  | nil =>
    intro s
    exact ⟨le_refl _, by simp⟩
  | cons a t ih =>
    intro s
    have hstep : s.1 ≤ (max_bin_step f s a).1 ∧
        Complex.abs (f a) ≤ (max_bin_step f s a).1 := by
      unfold max_bin_step
      split_ifs with h
      · exact ⟨le_of_lt h, le_refl _⟩
      · exact ⟨le_refl _, not_lt.mp h⟩
    obtain ⟨ih1, ih2⟩ := ih (max_bin_step f s a)
    refine ⟨le_trans hstep.1 ih1, ?_⟩
    intro i hi
    rcases List.mem_cons.mp hi with rfl | hi
    · exact le_trans hstep.2 ih1
    · exact ih2 i hi

lemma max_bin_foldl_cases (f : ℕ → ℂ) :
    ∀ l : List ℕ, ∀ s : ℝ × ℕ,
      l.foldl (max_bin_step f) s = s ∨
      ((l.foldl (max_bin_step f) s).2 ∈ l ∧
        (l.foldl (max_bin_step f) s).1
          = Complex.abs (f (l.foldl (max_bin_step f) s).2)) := by
  intro l
  induction l with
  | nil =>
    intro s
    exact Or.inl rfl
  | cons a t ih =>
    intro s
    have hfold : (a :: t).foldl (max_bin_step f) s
        = t.foldl (max_bin_step f) (max_bin_step f s a) := rfl
    rcases ih (max_bin_step f s a) with h | h
    · by_cases hc : Complex.abs (f a) > s.1
      · right
        rw [hfold, h]
        unfold max_bin_step
        rw [if_pos hc]
        exact ⟨List.mem_cons_self a t, rfl⟩
      · left
        rw [hfold, h]
        unfold max_bin_step
        rw [if_neg hc]
    · right
      rw [hfold]
      exact ⟨List.mem_cons_of_mem a h.1, h.2⟩

/-- C8: `max_bin` selects a bin below 100 whose magnitude (after the
index-0-to-1 clamp) dominates every bin in `[1, 100)` — the searched range;
`max_frequency` refines it by the parabolic-interpolation offset
`0.5*(a-g)/(a-2b+g+1/1000)`, converts via `bin * (SR/2) / FFTLEN
= bin * 24000 / 4096`, and never returns less than 10.  (The original
claim's "maximum among the first 100 bins" fails for bin 0, which the scan
skips: see `max_bin_ignores_bin0_cx`; in `step` the DC bin is zeroed before
the call, but `max_frequency` itself does not inspect it.) -/
theorem max_frequency_spec (f : ℕ → ℂ) :
    max_bin f < 100 ∧
    (∀ i : ℕ, 1 ≤ i → i < 100 →
      Complex.abs (f i)
        ≤ Complex.abs (f (if max_bin f = 0 then 1 else max_bin f))) ∧
    max_frequency f
      = max ((((if max_bin f = 0 then 1 else max_bin f : ℕ) : ℝ)
            + (1/2 : ℝ) * (Complex.abs (f ((if max_bin f = 0 then 1 else max_bin f) - 1))
                - Complex.abs (f ((if max_bin f = 0 then 1 else max_bin f) + 1)))
              / (Complex.abs (f ((if max_bin f = 0 then 1 else max_bin f) - 1))
                - 2 * Complex.abs (f (if max_bin f = 0 then 1 else max_bin f))
                + Complex.abs (f ((if max_bin f = 0 then 1 else max_bin f) + 1)) + 1/1000))
          * 24000 / 4096) 10 ∧
    10 ≤ max_frequency f := by
  have h99 := max_bin_foldl_ge f (List.range' 1 99) ((0 : ℝ), 0)
  have hcases := max_bin_foldl_cases f (List.range' 1 99) ((0 : ℝ), 0)
  have hmb : max_bin f = ((List.range' 1 99).foldl (max_bin_step f) ((0 : ℝ), 0)).2 := rfl
  refine ⟨?_, ?_, ?_, ?_⟩
  · rcases hcases with h | h
    · rw [hmb, h]
      norm_num
    · have := List.mem_range'_1.mp h.1
      omega
  · intro i h1 h2
    have hmem : i ∈ List.range' 1 99 := List.mem_range'_1.mpr ⟨h1, by omega⟩
    have hub := h99.2 i hmem
    rcases hcases with h | h
    · rw [hmb, h]
      norm_num
      have hz : Complex.abs (f i) ≤ 0 := by
        rw [h] at hub
        exact hub
      exact le_trans hz (AbsoluteValue.nonneg Complex.abs _)
    · have hk0 : ((List.range' 1 99).foldl (max_bin_step f) ((0 : ℝ), 0)).2 ≠ 0 := by
        have := (List.mem_range'_1.mp h.1).1
        omega
      rw [hmb, if_neg hk0, ← h.2]
      exact hub
  · simp only [max_frequency]
    norm_num [SRF, SR, FFTLEN, TBL, ABL, ABN]
  · simp only [max_frequency]
    exact le_max_right _ _

/-- C8 witness: instance of `max_frequency_spec` at the all-zero spectrum. -/
theorem max_frequency_spec_witness :
    max_bin (fun _ => 0) < 100 ∧
    (∀ i : ℕ, 1 ≤ i → i < 100 →
      Complex.abs ((fun _ => (0 : ℂ)) i)
        ≤ Complex.abs ((fun _ => (0 : ℂ))
            (if max_bin (fun _ => 0) = 0 then 1 else max_bin (fun _ => 0)))) ∧
    max_frequency (fun _ => 0)
      = max ((((if max_bin (fun _ => (0 : ℂ)) = 0 then 1 else max_bin (fun _ => 0) : ℕ) : ℝ)
            + (1/2 : ℝ) * (Complex.abs ((fun _ => (0 : ℂ)) ((if max_bin (fun _ => (0 : ℂ)) = 0 then 1 else max_bin (fun _ => 0)) - 1))
                - Complex.abs ((fun _ => (0 : ℂ)) ((if max_bin (fun _ => (0 : ℂ)) = 0 then 1 else max_bin (fun _ => 0)) + 1)))
              / (Complex.abs ((fun _ => (0 : ℂ)) ((if max_bin (fun _ => (0 : ℂ)) = 0 then 1 else max_bin (fun _ => 0)) - 1))
                - 2 * Complex.abs ((fun _ => (0 : ℂ)) (if max_bin (fun _ => (0 : ℂ)) = 0 then 1 else max_bin (fun _ => 0)))
                + Complex.abs ((fun _ => (0 : ℂ)) ((if max_bin (fun _ => (0 : ℂ)) = 0 then 1 else max_bin (fun _ => 0)) + 1)) + 1/1000))
          * 24000 / 4096) 10 ∧
    10 ≤ max_frequency (fun _ => 0) :=
  max_frequency_spec (fun _ => 0)

lemma foldl_zero_tail (f : ℕ → ℂ) :
    ∀ l : List ℕ, ∀ s : ℝ × ℕ, (∀ i ∈ l, f i = 0) → 0 ≤ s.1 →
      l.foldl (max_bin_step f) s = s := by
  intro l
  induction l with
  | nil =>
    intro s _ _
    rfl
  | cons a t ih =>
    intro s hz hs
    have h0 : Complex.abs (f a) = 0 := by
      rw [hz a (List.mem_cons_self a t), map_zero]
    have hstep : max_bin_step f s a = s := by
      unfold max_bin_step
      rw [if_neg (by rw [h0]; exact not_lt.mpr hs)]
    rw [show (a :: t).foldl (max_bin_step f) s
        = t.foldl (max_bin_step f) (max_bin_step f s a) from rfl, hstep]
    exact ih s (fun i hi => hz i (List.mem_cons_of_mem a hi)) hs

lemma max_bin_dc_heavy : max_bin dc_heavy_bins = 3 := by
  have h1 : dc_heavy_bins 1 = 0 := rfl
  have h2 : dc_heavy_bins 2 = 0 := rfl
  have h3 : dc_heavy_bins 3 = 1 := rfl
  have e1 : max_bin_step dc_heavy_bins ((0 : ℝ), 0) 1 = ((0 : ℝ), 0) := by
    unfold max_bin_step
    rw [if_neg (by rw [h1, map_zero]; norm_num)]
  have e2 : max_bin_step dc_heavy_bins ((0 : ℝ), 0) 2 = ((0 : ℝ), 0) := by
    unfold max_bin_step
    rw [if_neg (by rw [h2, map_zero]; norm_num)]
  have e3 : max_bin_step dc_heavy_bins ((0 : ℝ), 0) 3 = ((1 : ℝ), 3) := by
    unfold max_bin_step
    rw [if_pos (by rw [h3, map_one]; norm_num)]
    rw [h3, map_one]
  have htail : (List.range' 4 96).foldl (max_bin_step dc_heavy_bins) ((1 : ℝ), 3)
      = ((1 : ℝ), 3) := by
    refine foldl_zero_tail dc_heavy_bins (List.range' 4 96) ((1 : ℝ), 3) ?_ (by norm_num)
    intro i hi
    have := List.mem_range'_1.mp hi
    unfold dc_heavy_bins
    rw [if_neg (by omega), if_neg (by omega)]
  unfold max_bin
  rw [show List.range' 1 99 = 1 :: 2 :: 3 :: List.range' 4 96 from rfl]
  rw [List.foldl_cons, e1, List.foldl_cons, e2, List.foldl_cons, e3, htail]

/-- C8 counterexample: in the spectrum `dc_heavy_bins` (bin 0 has magnitude
5, bin 3 magnitude 1, everything else 0) the maximum-magnitude bin among the
first 100 bins is bin 0, yet `max_bin` returns bin 3 — the scan never
inspects bin 0, so "selects the maximum-magnitude bin among the first 100
bins" is false as stated. -/
theorem max_bin_ignores_bin0_cx :
    max_bin dc_heavy_bins = 3 ∧
    Complex.abs (dc_heavy_bins (max_bin dc_heavy_bins))
      < Complex.abs (dc_heavy_bins 0) ∧
    (0 : ℕ) < 100 := by
  refine ⟨max_bin_dc_heavy, ?_, by norm_num⟩
  rw [max_bin_dc_heavy]
  rw [show dc_heavy_bins 3 = 1 from rfl, show dc_heavy_bins 0 = 5 from rfl]
  rw [map_one, Complex.abs_ofNat]
  norm_num
